import Mathlib

/-
Verification of the frame-preparation and playback pipeline of the
terminal image viewer (src/viz/image.go).

The Go code computes its scale factor and delays in float64.  Two layers
model this.  `Frac` carries exact fractions (kernel-computable stand-ins
for rationals); arithmetic on it drops the IEEE rounding step, which is
faithful exactly where no rounding occurs (integral values below 2^53,
the literal scale 1.0, zero delays) - the only places the claims proved
over it depend on float values.  `roundFloat` implements binary64
round-to-nearest-even on exact fractions, and `resolveGeometryFloat` /
`renderDelayFloat` are the rounding-aware models of the two
float-sensitive computations; claims whose truth depends on double
rounding are settled against these.  `roundFloat` is exact for the
normal range of the format; the program's values never approach the
subnormal or overflow thresholds.
-/

namespace Img

/-- Exact fraction, standing in for a float64 value of the Go program.
`num / den`; all fractions built by the model have positive denominator. -/
structure Frac where
  num : Int
  den : Int
deriving DecidableEq

/-- Conversion of a Go integer to float64 (`float64(n)`). -/
def Frac.ofInt (n : Int) : Frac := ⟨n, 1⟩

/-- Float multiplication. -/
def Frac.mul (a b : Frac) : Frac := ⟨a.num * b.num, a.den * b.den⟩

/-- Float division. -/
def Frac.div (a b : Frac) : Frac := ⟨a.num * b.den, a.den * b.num⟩

/-- Comparison, valid for positive denominators. -/
def Frac.ble (a b : Frac) : Bool := decide (a.num * b.den ≤ b.num * a.den)

/-- `math.Min`. -/
def Frac.fmin (a b : Frac) : Frac := if a.ble b then a else b

/-- `int(math.Floor(a))` (floor of an exact fraction is an integer, and
converting an integral float to int is exact). -/
def Frac.floor (a : Frac) : Int := Int.fdiv a.num a.den

/-- `int(math.Ceil(a))`. -/
def Frac.ceil (a : Frac) : Int := -Int.fdiv (-a.num) a.den

/-- Denotation of a fraction as a rational number. -/
def Frac.toRat (a : Frac) : ℚ := (a.num : ℚ) / (a.den : ℚ)

/-- Number of binary digits of a natural number (0 for 0), computed by
structural recursion on a fuel argument so the kernel can evaluate it. -/
def bitsAux : Nat → Nat → Nat
  | 0, _ => 0
  | fuel + 1, n => if n = 0 then 0 else bitsAux fuel (n / 2) + 1

/-- Number of binary digits: `bits n = floor(log2 n) + 1` for `n >= 1`. -/
def bits (n : Nat) : Nat := bitsAux n n

/-- Decides `2^e <= a / b` for positive naturals by clearing
denominators. -/
def pow2le (e : Int) (a b : Nat) : Bool :=
  if 0 ≤ e then decide (b * 2 ^ e.toNat ≤ a) else decide (b ≤ a * 2 ^ (-e).toNat)

/-- The binary exponent of `a / b`: the largest `e` with
`2^e <= a / b`, obtained from the bit lengths and one correction
step. -/
def roundExp (a b : Nat) : Int :=
  let e0 : Int := (bits a : Int) - (bits b : Int)
  if pow2le e0 a b then e0 else e0 - 1

/-- Round-to-nearest, ties to even: `q` is the truncated quotient,
`r` the remainder, `dv` the divisor. -/
def roundNearestEven (q r dv : Nat) : Nat :=
  if 2 * r < dv then q else if dv < 2 * r then q + 1 else if q % 2 = 0 then q else q + 1

/-- Binary64 rounding of the positive fraction `a / b`: scale to a
53-bit significand at exponent `roundExp a b` and round to nearest,
ties to even.  The result is returned as an exact dyadic fraction. -/
def roundPos (a b : Nat) : Frac :=
  let S : Int := 52 - roundExp a b
  if 0 ≤ S then
    ⟨(roundNearestEven ((a * 2 ^ S.toNat) / b) ((a * 2 ^ S.toNat) % b) b : Int),
      ((2 ^ S.toNat : Nat) : Int)⟩
  else
    let dv := b * 2 ^ (-S).toNat
    ⟨(roundNearestEven (a / dv) (a % dv) dv : Int) * ((2 ^ (-S).toNat : Nat) : Int), 1⟩

/-- Binary64 rounding (round to nearest, ties to even) of an exact
fraction: the value a float64 operation returning this exact result
would actually produce. -/
def roundFloat (x : Frac) : Frac :=
  if x.num.natAbs = 0 ∨ x.den.natAbs = 0 then ⟨0, 1⟩
  else
    let r := roundPos x.num.natAbs x.den.natAbs
    if (decide (x.num < 0)) != (decide (x.den < 0)) then ⟨-r.num, r.den⟩ else r

/-- `float64(n)` with its conversion rounding. -/
def flOfInt (n : Int) : Frac := roundFloat ⟨n, 1⟩

/-- IEEE float64 multiplication: correctly rounded exact product. -/
def flMul (a b : Frac) : Frac := roundFloat (Frac.mul a b)

/-- IEEE float64 division: correctly rounded exact quotient. -/
def flDiv (a b : Frac) : Frac := roundFloat (Frac.div a b)

/-- The configuration fields of the `Image` struct that `Init` and `Draw`
consume (`Filename` and `ExportFilename` only select external
collaborators and are not modelled). -/
structure ImageCfg where
  loopCount : Int
  delayMultiplier : Frac
  userWidth : Int

/-- Inputs of the scale/geometry computation in `Init`: the user width,
the loop count and image format (which decide whether `tput cols` is
consulted), and the results the two `tput` invocations would return. -/
structure GeomInput where
  userWidth : Int
  loopCount : Int
  isGif : Bool
  tputCols : Except String Int
  tputLines : Except String Int

/-- The scale and size computation of `Image.Init` (image.go lines
66-111): pick a scale from the user width or from terminal geometry,
then `w = floor(scale*iw)`, `h = floor(scale*ih) / 2` with Go integer
(truncating) division. -/
def resolveGeometry (iw ih : Int) (inp : GeomInput) : Except String (Int × Int) :=
  let finish : Frac → Except String (Int × Int) := fun scale =>
    let w : Int := (Frac.mul scale (Frac.ofInt iw)).floor
    let h0 : Int := (Frac.mul scale (Frac.ofInt ih)).floor
    Except.ok (w, Int.tdiv h0 2)
  if 0 < inp.userWidth then
    finish (Frac.div (Frac.ofInt inp.userWidth) (Frac.ofInt iw))
  else
    match (if inp.isGif = false ∨ inp.loopCount = 0 then inp.tputCols else Except.ok 40) with
    | .error e => .error e
    | .ok tw =>
      match inp.tputLines with
      | .error e => .error e
      | .ok trLines =>
        let th := trLines * 2 - 1
        if tw < iw ∨ th < ih then
          finish (Frac.fmin (Frac.div (Frac.ofInt tw) (Frac.ofInt iw))
            (Frac.div (Frac.ofInt th) (Frac.ofInt ih)))
        else
          finish (Frac.ofInt 1)

/-- The same scale and size computation with the IEEE rounding of every
float64 operation made explicit: each division and multiplication is
correctly rounded (`flDiv`, `flMul`), integer-to-float conversions round
(`flOfInt`), the literal 1.0 and `math.Min` are exact, and
`math.Floor` plus the int conversion are exact on the rounded values.
This is the rounding-faithful refinement of `resolveGeometry`, used for
claims whose truth depends on double rounding. -/
def resolveGeometryFloat (iw ih : Int) (inp : GeomInput) : Except String (Int × Int) :=
  let finish : Frac → Except String (Int × Int) := fun scale =>
    let w : Int := (flMul scale (flOfInt iw)).floor
    let h0 : Int := (flMul scale (flOfInt ih)).floor
    Except.ok (w, Int.tdiv h0 2)
  if 0 < inp.userWidth then
    finish (flDiv (flOfInt inp.userWidth) (flOfInt iw))
  else
    match (if inp.isGif = false ∨ inp.loopCount = 0 then inp.tputCols else Except.ok 40) with
    | .error e => .error e
    | .ok tw =>
      match inp.tputLines with
      | .error e => .error e
      | .ok trLines =>
        let th := trLines * 2 - 1
        if tw < iw ∨ th < ih then
          finish (Frac.fmin (flDiv (flOfInt tw) (flOfInt iw))
            (flDiv (flOfInt th) (flOfInt ih)))
        else
          finish (Frac.ofInt 1)

/-- A raster image: a total pixel function, `none` meaning a
transparent/undefined pixel (GIF frames are paletted with at most binary
transparency, so `draw.Over` compositing is source-replaces-destination
on `some` pixels). -/
def Raster := Int → Int → Option Nat

/-- The all-transparent canvas produced by `image.NewRGBA`. -/
def blankRaster : Raster := fun _ _ => none

/-- `draw.Draw(dst, dst.Bounds(), src, image.ZP, draw.Over)` for rasters
with binary transparency: source pixels replace destination pixels
wherever the source is defined. -/
def overlay (dst src : Raster) : Raster := fun x y =>
  match src x y with
  | some c => some c
  | none => dst x y

/-- Result of `image.Decode`: the first decoded picture, the detected
format string, and the intrinsic bounds. -/
structure StillDecode where
  frame : Raster
  fmt : String
  iw : Int
  ih : Int

/-- Result of `gif.DecodeAll`: config dimensions, the frame rasters, the
per-frame delays (hundredths of a second) and disposal codes
(1 = DisposalNone, 2 = DisposalBackground, 3 = DisposalPrevious). -/
structure GifData where
  width : Int
  height : Int
  images : List Raster
  delays : List Int
  disposals : List Nat

/-- The external collaborators `Init` consults: file opens, the two
decoders, the two `tput` invocations, the `resize.Resize` scaling
routine and the `Colors.Index` palette lookup. -/
structure Env where
  openResult : Except String Unit
  decodeResult : Except String StillDecode
  tputCols : Except String Int
  tputLines : Except String Int
  openResult2 : Except String Unit
  gifResult : Except String GifData
  resize : Raster → Int → Int → Raster
  colorsIndex : Option Nat → Int

/-- One prepared frame: the palette-index buffer `picture[x][y]`
(outer list indexed by x of length w, inner by y of length h) and the
recomputed delay. -/
structure Frame where
  picture : List (List Int)
  delay : Int
deriving DecidableEq

/-- The index buffer built inside `appendImg`: resize the raster to
`w*h`, then one `Colors.Index` call per pixel; `uint8(...)` truncates
to the low 8 bits, i.e. mod 256. -/
def quantizedPic (env : Env) (w h : Int) (f : Raster) : List (List Int) :=
  let scaled := env.resize f w h
  (List.range w.toNat).map fun x =>
    (List.range h.toNat).map fun y =>
      Int.emod (env.colorsIndex (scaled (Int.ofNat x) (Int.ofNat y))) 256

/-- `int(math.Ceil(float64(delayMS) / 10.0 * img.DelayMultiplier))`
with exact (rounding-free) arithmetic; faithful where no rounding
occurs (notably `delayMS = 0`, and the nonnegativity of the result). -/
def renderDelay (delayMS : Int) (m : Frac) : Int :=
  Frac.ceil (Frac.mul (Frac.div (Frac.ofInt delayMS) (Frac.ofInt 10)) m)

/-- The same delay computation with IEEE rounding made explicit: the
division and the multiplication each round; `math.Ceil` and the int
conversion are exact on the rounded product.  The rounding-faithful
refinement of `renderDelay`. -/
def renderDelayFloat (delayMS : Int) (m : Frac) : Int :=
  Frac.ceil (flMul (flDiv (flOfInt delayMS) (flOfInt 10)) m)

/-- The `appendImg` closure of `Init` (image.go lines 113-128). -/
def appendImg (cfg : ImageCfg) (env : Env) (w h : Int) (f : Raster) (delayMS : Int)
    (frames : List Frame) : List Frame :=
  frames ++ [⟨quantizedPic env w h f, renderDelay delayMS cfg.delayMultiplier⟩]

/-- Heap state of the GIF compositing loop.  Go manipulates pointers to
RGBA buffers (`canvas`, `prev`); the store is the heap, the two fields
are pointers into it.  `prev = &(*canvas)` in Go copies the pointer, not
the buffer, which this model reproduces. -/
structure CompState where
  store : List Raster
  canvasPtr : Nat
  prevPtr : Option Nat

/-- Initial compositing state: one fresh blank canvas, no remembered
previous canvas. -/
def initCompState : CompState := ⟨[blankRaster], 0, none⟩

/-- One iteration of the compositing loop (image.go lines 143-159):
draw frame `i` over the canvas, capture the canvas contents, then apply
the disposal code.  DisposalBackground allocates a fresh blank canvas
and falls through into the DisposalNone case, which sets `prev` to the
(current) canvas pointer; DisposalPrevious redirects the canvas pointer
to `prev` when it is set. -/
def compStep (g : GifData) (st : CompState) (i : Nat) : Raster × CompState :=
  let canvas := st.store.getD st.canvasPtr blankRaster
  let drawn := overlay canvas (g.images.getD i blankRaster)
  let st1 : CompState := ⟨st.store.set st.canvasPtr drawn, st.canvasPtr, st.prevPtr⟩
  let st2 : CompState :=
    if g.disposals.getD i 0 = 2 then
      ⟨st1.store ++ [blankRaster], st1.store.length, some st1.store.length⟩
    else if g.disposals.getD i 0 = 1 then
      ⟨st1.store, st1.canvasPtr, some st1.canvasPtr⟩
    else if g.disposals.getD i 0 = 3 then
      match st1.prevPtr with
      | some p => ⟨st1.store, p, st1.prevPtr⟩
      | none => st1
    else st1
  (drawn, st2)

/-- The sequence of composited rasters the loop captures (the argument
passed to `appendImg` at each iteration), with the final heap state. -/
def compRun (g : GifData) : List Raster × CompState :=
  (List.range g.images.length).foldl
    (fun acc i =>
      let step := compStep g acc.2 i
      (acc.1 ++ [step.1], step.2))
    ([], initCompState)

/-- The full compositing loop: each captured raster is handed to
`appendImg` together with `g.Delay[i]*10` milliseconds. -/
def compositeAll (cfg : ImageCfg) (env : Env) (w h : Int) (g : GifData) : List Frame :=
  ((List.range g.images.length).foldl
    (fun (acc : List Frame × CompState) i =>
      let step := compStep g acc.2 i
      (appendImg cfg env w h step.1 (g.delays.getD i 0 * 10) acc.1, step.2))
    ([], initCompState)).1

/-- The assembled image after `Init`: frames, resolved geometry, loop
count. -/
structure InitResult where
  frames : List Frame
  w : Int
  h : Int
  loopCount : Int
deriving DecidableEq

/-- File-handle events performed by `Init` on the source file. -/
inductive FOp where
  | fopen
  | fclose
deriving DecidableEq

/-- `Image.Init` (image.go lines 52-165), with the externally visible
file-handle events recorded alongside the result.  Mirrors the source:
open, `image.Decode` (returning on error WITHOUT closing the file),
close, geometry, then either the GIF branch (re-open, `gif.DecodeAll`
— again returning on error without closing — compositing loop, close)
or the single-picture branch which forces the loop count to 1. -/
def ImageInit (cfg : ImageCfg) (env : Env) : Except String InitResult × List FOp :=
  match env.openResult with
  | .error e => (.error e, [])
  | .ok _ =>
    match env.decodeResult with
    | .error e => (.error e, [.fopen])
    | .ok d =>
      match resolveGeometry d.iw d.ih
          ⟨cfg.userWidth, cfg.loopCount, d.fmt == "gif", env.tputCols, env.tputLines⟩ with
      | .error e => (.error e, [.fopen, .fclose])
      | .ok wh =>
        if d.fmt == "gif" ∧ 0 < cfg.loopCount then
          match env.openResult2 with
          | .error e => (.error e, [.fopen, .fclose])
          | .ok _ =>
            match env.gifResult with
            | .error e => (.error e, [.fopen, .fclose, .fopen])
            | .ok g =>
              (.ok ⟨compositeAll cfg env wh.1 wh.2 g, wh.1, wh.2, cfg.loopCount⟩,
                [.fopen, .fclose, .fopen, .fclose])
        else
          (.ok ⟨appendImg cfg env wh.1 wh.2 d.frame 0 [], wh.1, wh.2, 1⟩,
            [.fopen, .fclose])

/-- The abstract output sink of `Draw`.  Each operation transforms the
sink state and reports an optional error; the state transition happens
regardless (a Go method performs its side effect and returns error). -/
structure Writer (σ : Type) where
  write : String → σ → σ × Option String
  lineUp : Int → σ → σ × Option String
  sleep : Int → σ → σ × Option String
  close : σ → σ × Option String

/-- The per-pixel output unit
`fmt.Sprintf("\x1b[48;5;%vm \x1b[0m", frame.picture[x][y])`. -/
def pixelStr (c : Int) : String := "\x1b[48;5;" ++ toString c ++ "m \x1b[0m"

/-- `frame.picture[x][y]` lookup. -/
def picAt (pic : List (List Int)) (x y : Nat) : Int := (pic.getD x []).getD y 0

/-- Lift an operation result into the abort-on-error flow of `Draw`. -/
def checked {σ : Type} (r : σ × Option String) : Except (σ × String) σ :=
  match r with
  | (s, none) => .ok s
  | (s, some e) => .error (s, e)

/-- The inner pixel loop of one row: `writer.Write(...)` with the
returned error DISCARDED, exactly as in the source (image.go line 186). -/
def drawRowPixels {σ : Type} (wr : Writer σ) (pic : List (List Int)) (y : Nat) :
    List Nat → σ → σ
  | [], s => s
  | x :: xs, s => drawRowPixels wr pic y xs (wr.write (pixelStr (picAt pic x y)) s).1

/-- The row loop of one frame: pixels, then the checked newline write. -/
def drawRows {σ : Type} (wr : Writer σ) (w : Int) (pic : List (List Int)) :
    List Nat → σ → Except (σ × String) σ
  | [], s => .ok s
  | y :: ys, s =>
    let s1 := drawRowPixels wr pic y (List.range w.toNat) s
    match wr.write "\n" s1 with
    | (s2, none) => drawRows wr w pic ys s2
    | (s2, some e) => .error (s2, e)

/-- One frame of the playback loop: when a frame was already drawn,
cursor-up by the resolved height and sleep for the previous frame delay
(both checked), then draw the rows; the state carries
(firstFrameDone, previous delay, sink state). -/
def drawOneFrame {σ : Type} (wr : Writer σ) (w h : Int) (fr : Frame) :
    Bool × Int × σ → Except (σ × String) (Bool × Int × σ)
  | (ffd, delay, s) =>
    let pre : Except (σ × String) σ :=
      if ffd then
        match wr.lineUp h s with
        | (s1, some e) => .error (s1, e)
        | (s1, none) =>
          match wr.sleep delay s1 with
          | (s2, some e) => .error (s2, e)
          | (s2, none) => .ok s2
      else .ok s
    match pre with
    | .error x => .error x
    | .ok s2 =>
      match drawRows wr w fr.picture (List.range h.toNat) s2 with
      | .error x => .error x
      | .ok s3 => .ok (true, fr.delay, s3)

/-- The inner `for _, frame := range img.frames` loop. -/
def drawFrames {σ : Type} (wr : Writer σ) (w h : Int) :
    List Frame → Bool × Int × σ → Except (σ × String) (Bool × Int × σ)
  | [], st => .ok st
  | fr :: frs, st =>
    match drawOneFrame wr w h fr st with
    | .error x => .error x
    | .ok st1 => drawFrames wr w h frs st1

/-- The outer `for i := 0; i < img.LoopCount; i++` loop. -/
def drawLoops {σ : Type} (wr : Writer σ) (w h : Int) (frames : List Frame) :
    Nat → Bool × Int × σ → Except (σ × String) (Bool × Int × σ)
  | 0, st => .ok st
  | Nat.succ n, st =>
    match drawFrames wr w h frames st with
    | .error x => .error x
    | .ok st1 => drawLoops wr w h frames n st1

/-- `Image.Draw` (image.go lines 169-199): run the playback loops and
finally `writer.Close()`; returns the final sink state together with the
error surfaced to the caller (`none` = nil error). -/
def ImageDraw {σ : Type} (img : InitResult) (wr : Writer σ) (s : σ) : σ × Option String :=
  match drawLoops wr img.w img.h img.frames img.loopCount.toNat (false, 0, s) with
  | .error x => (x.1, some x.2)
  | .ok st => wr.close st.2.2

/-- Observable sink events, for recording writers. -/
inductive Event where
  | write (s : String)
  | lineUp (n : Int)
  | sleep (d : Int)
  | close
deriving DecidableEq

/-- A recording sink with switchable failure injection: `failNL` makes
line-terminator writes fail, `failLU` cursor-ups, `failSL` sleeps and
`failCL` the final close.  Every operation appends its event. -/
def testWriter (failNL failLU failSL failCL : Bool) : Writer (List Event) where
  write str := fun evs =>
    (evs ++ [.write str], if failNL && str == "\n" then some "werr" else none)
  lineUp n := fun evs => (evs ++ [.lineUp n], if failLU then some "luerr" else none)
  sleep d := fun evs => (evs ++ [.sleep d], if failSL then some "slerr" else none)
  close := fun evs => (evs ++ [.close], if failCL then some "clerr" else none)

/-- The always-succeeding recording sink. -/
def recorder : Writer (List Event) := testWriter false false false false

/-- The write events one row emits: one pixel cell per column, then the
line terminator. -/
def rowEvents (pic : List (List Int)) (w : Int) (y : Nat) : List Event :=
  (List.range w.toNat).map (fun x => Event.write (pixelStr (picAt pic x y))) ++
    [Event.write "\n"]

/-- Concatenation of row event blocks. -/
def catRows (pic : List (List Int)) (w : Int) : List Nat → List Event
  | [] => []
  | y :: ys => rowEvents pic w y ++ catRows pic w ys

/-- All write events of one full frame. -/
def frameEvents (w h : Int) (pic : List (List Int)) : List Event :=
  catRows pic w (List.range h.toNat)

/-- A sink whose per-pixel writes always fail while newline writes,
cursor moves, sleeps and close succeed; used to show that per-pixel
write errors are discarded. -/
def pixelFailWriter : Writer (List Event) where
  write str := fun evs =>
    (evs ++ [.write str], if str == "\n" then none else some "pixel write failed")
  lineUp n := fun evs => (evs ++ [.lineUp n], none)
  sleep d := fun evs => (evs ++ [.sleep d], none)
  close := fun evs => (evs ++ [.close], none)

/-- The dimension half of the RenderedFrame invariant: an index buffer
of exactly the resolved width times height. -/
def frameDims (w h : Int) (fr : Frame) : Prop :=
  fr.picture.length = w.toNat ∧ ∀ row ∈ fr.picture, row.length = h.toNat

/-- The float64 value nearest 5/3 (1.6666666666666667): a delay
multiplier a user would type, whose stored double is slightly above
5/3. -/
def multEx : Frac := ⟨7505999378950827, 4503599627370496⟩

/-- Test frame: a single opaque pixel at (0,0). -/
def f0ex : Raster := fun x y => if x = 0 ∧ y = 0 then some 1 else none

/-- Test frame: a single opaque pixel at (1,0). -/
def f1ex : Raster := fun x y => if x = 1 ∧ y = 0 then some 2 else none

/-- Test GIF for the disposal snapshot question: frame 0 (disposal none)
paints (0,0), frame 1 (disposal previous) paints (1,0), frame 2 paints
nothing, so its composite exposes the canvas state after the
restore-to-previous step of frame 1. -/
def gEx : GifData := ⟨2, 1, [f0ex, f1ex, blankRaster], [0, 0, 0], [1, 3, 1]⟩

/-- Test still decode: a 2x2 constant picture in a static format. -/
def dStill : StillDecode := ⟨fun _ _ => some 3, "png", 2, 2⟩

/-- Empty GIF decode result, for environments whose GIF branch is never
taken. -/
def gEmpty : GifData := ⟨0, 0, [], [], []⟩

/-- Environment with a successful static decode, identity resize and
identity palette. -/
def envStatic : Env :=
  ⟨.ok (), .ok dStill, .error "no cols", .error "no lines", .ok (), .ok gEmpty,
    fun f _ _ => f, fun c => match c with | some n => (n : Int) | none => 0⟩

/-- Configuration with loop count 5, multiplier 1 and user width 2. -/
def cfgStatic : ImageCfg := ⟨5, Frac.ofInt 1, 2⟩

/-- Configuration with delay multiplier 2. -/
def cfgTwo : ImageCfg := ⟨1, ⟨2, 1⟩, 0⟩

/-- One-frame animated GIF with source delay 1 (hundredth of a second). -/
def gNeg : GifData := ⟨2, 1, [fun _ _ => some 1], [1], [0]⟩

/-- Still decode of the animated test file. -/
def dNeg : StillDecode := ⟨fun _ _ => some 1, "gif", 2, 1⟩

/-- Environment decoding the one-frame animated GIF. -/
def envNeg : Env :=
  ⟨.ok (), .ok dNeg, .error "no cols", .error "no lines", .ok (), .ok gNeg,
    fun f _ _ => f, fun _ => 0⟩

/-- Configuration with a NEGATIVE delay multiplier. -/
def cfgNeg : ImageCfg := ⟨1, ⟨-1, 1⟩, 1⟩

/-- Environment whose image decode fails. -/
def envDecodeErr : Env :=
  ⟨.ok (), .error "bad data", .error "no cols", .error "no lines", .ok (), .ok gEmpty,
    fun f _ _ => f, fun _ => 0⟩

/- ------------------------------------------------------------------ -/
/- Theorems.                                                          -/
/- ------------------------------------------------------------------ -/

theorem Frac.floor_eq_ratFloor (n d : Int) (hd : 0 < d) :
    Frac.floor ⟨n, d⟩ = ⌊(n : ℚ) / (d : ℚ)⌋ := by
  obtain ⟨m, rfl⟩ : ∃ m : ℕ, d = (m : ℤ) :=
    ⟨d.toNat, (Int.toNat_of_nonneg (le_of_lt hd)).symm⟩
  show Int.fdiv n m = _
  rw [Int.fdiv_eq_ediv _ (le_of_lt hd)]
  rw [show (((m : ℤ) : ℚ)) = ((m : ℕ) : ℚ) by push_cast; ring]
  exact (Rat.floor_intCast_div_natCast n m).symm

theorem Frac.ceil_eq_ratCeil (n d : Int) (hd : 0 < d) :
    Frac.ceil ⟨n, d⟩ = ⌈(n : ℚ) / (d : ℚ)⌉ := by
  show -Int.fdiv (-n) d = _
  rw [show Int.fdiv (-n) d = Frac.floor ⟨-n, d⟩ from rfl]
  rw [Frac.floor_eq_ratFloor (-n) d hd]
  rw [show ((-n : ℤ) : ℚ) / (d : ℚ) = -((n : ℚ) / (d : ℚ)) by push_cast; ring]
  rw [Int.floor_neg]
  ring

theorem int_tdiv_two_eq_ratFloor (n : Int) (h : 0 ≤ n) : Int.tdiv n 2 = ⌊(n : ℚ) / 2⌋ := by
  rw [Int.tdiv_eq_ediv h (by norm_num)]
  rw [show ((2 : ℚ)) = (((2 : ℕ) : ℤ) : ℚ) by norm_num]
  rw [show ((((2 : ℕ) : ℤ) : ℚ)) = ((2 : ℕ) : ℚ) by push_cast; ring]
  rw [Rat.floor_intCast_div_natCast n 2]
  norm_num

theorem Frac.floor_toRat (x : Frac) (h : 0 < x.den) : x.floor = ⌊x.toRat⌋ :=
  Frac.floor_eq_ratFloor x.num x.den h

theorem Frac.ceil_toRat (x : Frac) (h : 0 < x.den) : x.ceil = ⌈x.toRat⌉ :=
  Frac.ceil_eq_ratCeil x.num x.den h

theorem Frac.toRat_mul (a b : Frac) : (Frac.mul a b).toRat = a.toRat * b.toRat := by
  unfold Frac.mul Frac.toRat
  push_cast
  rw [div_mul_div_comm]

theorem Frac.toRat_div (a b : Frac) (ha : a.den ≠ 0) (hb : b.den ≠ 0) (hbn : b.num ≠ 0) :
    (Frac.div a b).toRat = a.toRat / b.toRat := by
  unfold Frac.div Frac.toRat
  have c1 : ((a.den : ℚ)) ≠ 0 := Int.cast_ne_zero.2 ha
  have c2 : ((b.den : ℚ)) ≠ 0 := Int.cast_ne_zero.2 hb
  have c3 : ((b.num : ℚ)) ≠ 0 := Int.cast_ne_zero.2 hbn
  push_cast
  field_simp

theorem Frac.num_pos_of_toRat_pos (x : Frac) (hden : 0 < x.den) (hpos : 0 < x.toRat) :
    0 < x.num := by
  unfold Frac.toRat at hpos
  by_contra h
  push_neg at h
  have h1 : ((x.num : ℚ)) ≤ 0 := by exact_mod_cast h
  have h2 : (0 : ℚ) < ((x.den : ℚ)) := by exact_mod_cast hden
  have : ((x.num : ℚ)) / ((x.den : ℚ)) ≤ 0 := div_nonpos_iff.2 (Or.inr ⟨h1, h2.le⟩)
  linarith

theorem rep_of_toRat (x : Frac) (hden : 0 < x.den) (m k : Nat)
    (h : x.toRat = (m : ℚ) / 2 ^ k) : x.num * 2 ^ k = (m : Int) * x.den := by
  unfold Frac.toRat at h
  rw [div_eq_div_iff (by exact_mod_cast hden.ne') (by positivity)] at h
  exact_mod_cast h

theorem bitsAux_agree : ∀ (n f1 f2 : Nat), n ≤ f1 → n ≤ f2 → bitsAux f1 n = bitsAux f2 n := by
  intro n
  induction n using Nat.strong_induction_on with
  | _ n ih =>
    intro f1 f2 h1 h2
    match f1, f2 with
    | 0, 0 => rfl
    | 0, g + 1 =>
      have : n = 0 := by omega
      subst this
      simp [bitsAux]
    | g + 1, 0 =>
      have : n = 0 := by omega
      subst this
      simp [bitsAux]
    | a + 1, b + 1 =>
      by_cases hn : n = 0
      · subst hn; simp [bitsAux]
      · simp only [bitsAux, if_neg hn]
        have hlt : n / 2 < n := Nat.div_lt_self (by omega) (by omega)
        rw [ih (n / 2) hlt a b (by omega) (by omega)]

theorem bits_eq_succ (n : Nat) (h : 1 ≤ n) : bits n = bits (n / 2) + 1 := by
  unfold bits
  match n, h with
  | m + 1, _ =>
    show bitsAux (m + 1) (m + 1) = _
    simp only [bitsAux, if_neg (by omega : ¬ m + 1 = 0)]
    rw [bitsAux_agree ((m + 1) / 2) m ((m + 1) / 2) (by omega) (by omega)]

theorem bits_pos (n : Nat) (h : 1 ≤ n) : 1 ≤ bits n := by
  rw [bits_eq_succ n h]; omega

theorem lt_two_pow_bits : ∀ n : Nat, n < 2 ^ bits n := by
  intro n
  induction n using Nat.strong_induction_on with
  | _ n ih =>
    by_cases hn : n = 0
    · subst hn; simp [bits, bitsAux]
    · rw [bits_eq_succ n (by omega)]
      have h1 := ih (n / 2) (Nat.div_lt_self (by omega) (by omega))
      have h2 : 2 ^ (bits (n / 2) + 1) = 2 * 2 ^ bits (n / 2) := by ring
      omega

theorem two_pow_bits_le : ∀ n : Nat, 1 ≤ n → 2 ^ (bits n - 1) ≤ n := by
  intro n
  induction n using Nat.strong_induction_on with
  | _ n ih =>
    intro h1
    by_cases hn : n = 1
    · subst hn
      have : bits 1 = 1 := by rw [bits_eq_succ 1 (by omega)]; simp [bits, bitsAux]
      rw [this]
      simp
    · have h2 : 2 ≤ n := by omega
      rw [bits_eq_succ n (by omega)]
      have hhalf : 1 ≤ n / 2 := by omega
      have ihh := ih (n / 2) (Nat.div_lt_self (by omega) (by omega)) hhalf
      have hb := bits_pos (n / 2) hhalf
      have h3 : bits (n / 2) + 1 - 1 = bits (n / 2) := by omega
      rw [h3]
      obtain ⟨c, hc⟩ : ∃ c, bits (n / 2) = c + 1 := ⟨bits (n / 2) - 1, by omega⟩
      have h4 : 2 ^ bits (n / 2) = 2 * 2 ^ (bits (n / 2) - 1) := by
        rw [hc, Nat.add_sub_cancel, pow_succ]
        ring
      omega

theorem roundExp_lb (a b : Nat) (ha : 1 ≤ a) (hb : 1 ≤ b) :
    if 0 ≤ roundExp a b then b * 2 ^ (roundExp a b).toNat ≤ a
    else b ≤ a * 2 ^ (-(roundExp a b)).toNat := by
  unfold roundExp
  cases hB : pow2le ((bits a : Int) - (bits b : Int)) a b with
  | true =>
    simp only [hB, eq_self_iff_true, if_true]
    unfold pow2le at hB
    split at hB
    · next hc => rw [if_pos hc]; exact of_decide_eq_true hB
    · next hc => rw [if_neg hc]; exact of_decide_eq_true hB
  | false =>
    simp only [hB, Bool.false_eq_true, if_false]
    have hA1 : a < 2 ^ bits a := lt_two_pow_bits a
    have hA2 : 2 ^ (bits a - 1) ≤ a := two_pow_bits_le a ha
    have hB1 : b < 2 ^ bits b := lt_two_pow_bits b
    have hpa : 1 ≤ bits a := bits_pos a ha
    have hpb : 1 ≤ bits b := bits_pos b hb
    by_cases hsgn : 0 ≤ (bits a : Int) - (bits b : Int) - 1
    · rw [if_pos hsgn]
      have he : ((bits a : Int) - (bits b : Int) - 1).toNat = bits a - bits b - 1 := by omega
      rw [he]
      have hexp : bits b + (bits a - bits b - 1) = bits a - 1 := by omega
      refine le_of_lt ?_
      calc b * 2 ^ (bits a - bits b - 1)
          ≤ (2 ^ bits b - 1) * 2 ^ (bits a - bits b - 1) := by
            have : b ≤ 2 ^ bits b - 1 := by omega
            exact Nat.mul_le_mul_right _ this
        _ < 2 ^ bits b * 2 ^ (bits a - bits b - 1) := by
            have h2p : 0 < 2 ^ (bits a - bits b - 1) := Nat.pos_pow_of_pos _ (by omega)
            have : 2 ^ bits b - 1 < 2 ^ bits b := by
              have := Nat.pos_pow_of_pos (bits b) (show 0 < 2 by omega)
              omega
            exact Nat.mul_lt_mul_of_lt_of_le this (le_refl _) h2p
        _ = 2 ^ (bits a - 1) := by rw [← pow_add, hexp]
        _ ≤ a := hA2
    · rw [if_neg hsgn]
      have he : (-((bits a : Int) - (bits b : Int) - 1)).toNat = bits b - bits a + 1 := by omega
      rw [he]
      have hexp : (bits a - 1) + (bits b - bits a + 1) = bits b := by omega
      refine le_of_lt ?_
      calc b < 2 ^ bits b := hB1
        _ = 2 ^ (bits a - 1) * 2 ^ (bits b - bits a + 1) := by rw [← pow_add, hexp]
        _ ≤ a * 2 ^ (bits b - bits a + 1) := by
            exact Nat.mul_le_mul_right _ hA2

theorem roundExp_bound (a b m k : Nat) (e : Int) (hm : m ≤ 2 ^ 53 - 1) (hb : 1 ≤ b)
    (hrep : a * 2 ^ k = m * b)
    (hA : if 0 ≤ e then b * 2 ^ e.toNat ≤ a else b ≤ a * 2 ^ (-e).toNat) :
    0 ≤ 52 - e ∧ k ≤ (52 - e).toNat := by
  split at hA
  · next hepos =>
    have key : 2 ^ (e.toNat + k) ≤ m := by
      have h1 : b * 2 ^ e.toNat * 2 ^ k ≤ a * 2 ^ k :=
        Nat.mul_le_mul_right _ hA
      rw [hrep] at h1
      have h2 : b * 2 ^ e.toNat * 2 ^ k = 2 ^ (e.toNat + k) * b := by
        rw [pow_add]; ring
      rw [h2] at h1
      exact Nat.le_of_mul_le_mul_right h1 (by omega)
    have hlt : e.toNat + k < 53 := by
      by_contra hcon
      push_neg at hcon
      have : (2 : Nat) ^ 53 ≤ 2 ^ (e.toNat + k) := Nat.pow_le_pow_right (by omega) hcon
      have h53 : (2 : Nat) ^ 53 = 9007199254740992 := by norm_num
      omega
    constructor
    · omega
    · omega
  · next heneg =>
    have key : 2 ^ k ≤ m * 2 ^ (-e).toNat := by
      have h1 : b * 2 ^ k ≤ a * 2 ^ (-e).toNat * 2 ^ k :=
        Nat.mul_le_mul_right _ hA
      have h2 : a * 2 ^ (-e).toNat * 2 ^ k = (a * 2 ^ k) * 2 ^ (-e).toNat := by ring
      rw [h2, hrep] at h1
      have h3 : b * 2 ^ k = 2 ^ k * b := by ring
      rw [h3] at h1
      have h4 : m * b * 2 ^ (-e).toNat = (m * 2 ^ (-e).toNat) * b := by ring
      rw [h4] at h1
      exact Nat.le_of_mul_le_mul_right h1 (by omega)
    have hlt : k < 53 + (-e).toNat := by
      by_contra hcon
      push_neg at hcon
      have h1 : (2 : Nat) ^ (53 + (-e).toNat) ≤ 2 ^ k := Nat.pow_le_pow_right (by omega) hcon
      have h2 : (2 : Nat) ^ (53 + (-e).toNat) = 2 ^ 53 * 2 ^ (-e).toNat := by rw [pow_add]
      have h3 : (2 : Nat) ^ 53 * 2 ^ (-e).toNat ≤ m * 2 ^ (-e).toNat := by omega
      have h4 : (2 : Nat) ^ 53 ≤ m :=
        Nat.le_of_mul_le_mul_right h3 (Nat.pos_pow_of_pos _ (by omega))
      have h53 : (2 : Nat) ^ 53 = 9007199254740992 := by norm_num
      omega
    constructor
    · omega
    · omega

theorem roundNearestEven_exact (q dv : Nat) (hdv : 1 ≤ dv) :
    roundNearestEven q 0 dv = q := by
  unfold roundNearestEven
  rw [if_pos (by omega)]

theorem roundPos_den_pos (a b : Nat) : 0 < (roundPos a b).den := by
  unfold roundPos
  dsimp only
  split
  · dsimp only
    exact_mod_cast Nat.pos_pow_of_pos ((52 - roundExp a b).toNat) (by omega)
  · norm_num

theorem roundPos_exact (a b m k : Nat) (ha : 1 ≤ a) (hb : 1 ≤ b)
    (hrep : a * 2 ^ k = m * b) (hm : m ≤ 2 ^ 53 - 1) :
    (roundPos a b).toRat = (a : ℚ) / (b : ℚ) := by
  obtain ⟨hS, hk⟩ := roundExp_bound a b m k (roundExp a b) hm hb hrep (roundExp_lb a b ha hb)
  unfold roundPos
  dsimp only
  rw [if_pos hS]
  set St := (52 - roundExp a b).toNat with hSt
  obtain ⟨c, hc⟩ : ∃ c, St = k + c := ⟨St - k, by omega⟩
  have hdiv : a * 2 ^ St = (m * 2 ^ c) * b := by
    rw [hc, pow_add, ← mul_assoc, hrep]
    ring
  rw [hdiv, Nat.mul_div_cancel _ (by omega), Nat.mul_mod_left,
    roundNearestEven_exact _ b hb]
  unfold Frac.toRat
  dsimp only
  rw [div_eq_div_iff (by positivity) (by exact_mod_cast Nat.cast_ne_zero.2 (by omega : b ≠ 0))]
  exact_mod_cast hdiv.symm

theorem roundFloat_den_pos (x : Frac) : 0 < (roundFloat x).den := by
  unfold roundFloat
  split
  · norm_num
  · dsimp only
    split
    · exact roundPos_den_pos x.num.natAbs x.den.natAbs
    · exact roundPos_den_pos x.num.natAbs x.den.natAbs

theorem roundFloat_exact (x : Frac) (m k : Nat) (hden : 0 < x.den)
    (hrep : x.num * 2 ^ k = (m : Int) * x.den) (hm : m ≤ 2 ^ 53 - 1) :
    (roundFloat x).toRat = x.toRat := by
  have hnum : 0 ≤ x.num := by
    by_contra hcon
    push_neg at hcon
    have h1 : x.num * 2 ^ k < 0 :=
      mul_neg_of_neg_of_pos hcon (by positivity)
    have h2 : (0 : Int) ≤ (m : Int) * x.den := by positivity
    omega
  have e1 : (x.num.natAbs : Int) = x.num := Int.natAbs_of_nonneg hnum
  have e2 : (x.den.natAbs : Int) = x.den := Int.natAbs_of_nonneg hden.le
  unfold roundFloat
  by_cases h0 : x.num.natAbs = 0 ∨ x.den.natAbs = 0
  · rw [if_pos h0]
    have hb0 : x.den.natAbs ≠ 0 := by
      intro h
      rw [h] at e2
      omega
    have ha0 : x.num = 0 := by
      rcases h0 with h | h
      · rw [← e1, h]; rfl
      · exact absurd h hb0
    simp [Frac.toRat, ha0]
  · rw [if_neg h0]
    push_neg at h0
    obtain ⟨ha, hb⟩ := h0
    dsimp only
    have hnegF : ((decide (x.num < 0)) != (decide (x.den < 0))) = false := by
      have t1 : decide (x.num < 0) = false := decide_eq_false (not_lt.2 hnum)
      have t2 : decide (x.den < 0) = false := decide_eq_false (not_lt.2 hden.le)
      rw [t1, t2]
      rfl
    rw [hnegF]
    simp only [Bool.false_eq_true, if_false]
    have hrepN : x.num.natAbs * 2 ^ k = m * x.den.natAbs := by
      have h := hrep
      rw [← e1, ← e2] at h
      exact_mod_cast h
    rw [roundPos_exact x.num.natAbs x.den.natAbs m k (by omega) (by omega) hrepN hm]
    unfold Frac.toRat
    have q1 : ((x.num.natAbs : ℚ)) = ((x.num : ℚ)) := by
      rw [Int.cast_natAbs, abs_of_nonneg hnum]
    have q2 : ((x.den.natAbs : ℚ)) = ((x.den : ℚ)) := by
      rw [Int.cast_natAbs, abs_of_nonneg hden.le]
    rw [q1, q2]

theorem flOfInt_exact (n : Int) (h0 : 0 ≤ n) (h53 : n ≤ 2 ^ 53 - 1) :
    (flOfInt n).toRat = (n : ℚ) := by
  unfold flOfInt
  have q53 : (2 : ℤ) ^ 53 = 9007199254740992 := by norm_num
  have p53 : (2 : ℕ) ^ 53 = 9007199254740992 := by norm_num
  rw [roundFloat_exact ⟨n, 1⟩ n.toNat 0 (by norm_num)
    (by simp [Int.toNat_of_nonneg h0]) (by omega)]
  simp [Frac.toRat]

/-- C1 (counterexample): the claim fails for an animated GIF rendered
with a positive loop count.  Intrinsic size 50x2, terminal query would
return 100 columns and 10 rows (so tc = 100 >= 50 and th = 19 >= 2), no
user width; the code skips the column query for a looping GIF and uses
the fixed fallback of 40 columns, so it scales by 40/50 and resolves
(40, 0) instead of the claimed (50, floor(2/2)) = (50, 1). -/
theorem c1_counterexample :
    resolveGeometry 50 2 ⟨0, 1, true, .ok 100, .ok 10⟩ = .ok (40, 0) ∧
      ((40 : Int), (0 : Int)) ≠ ((50 : Int), ⌊(2 : ℚ) / 2⌋) := by
  refine ⟨rfl, ?_⟩
  intro h
  have h1 := congrArg Prod.fst h
  norm_num at h1

/-- C1 (amended): with no user width override, a terminal query
returning tc columns and tr rows with th = 2*tr - 1, tc >= iw and
th >= ih, the resolved size is exactly (iw, floor(ih/2)) - PROVIDED the
source is not an animated GIF rendered with a positive loop count (for
those, the code never queries columns and uses a fixed 40-column
budget, so the conclusion additionally needs iw <= 40). -/
theorem c1_fit_geometry (iw ih tc trr : Int) (inp : GeomInput)
    (hu : inp.userWidth = 0)
    (hq : inp.isGif = false ∨ inp.loopCount = 0)
    (hcols : inp.tputCols = .ok tc)
    (hlines : inp.tputLines = .ok trr)
    (h1 : iw ≤ tc) (h2 : ih ≤ 2 * trr - 1) (h3 : 0 ≤ ih) :
    resolveGeometry iw ih inp = .ok (iw, ⌊(ih : ℚ) / 2⌋) := by
  unfold resolveGeometry
  rw [hu, if_neg (lt_irrefl 0), if_pos hq, hcols, hlines]
  dsimp only
  rw [if_neg (by push_neg; exact ⟨h1, by omega⟩)]
  simp only [Frac.mul, Frac.ofInt, Frac.floor, one_mul, mul_one]
  rw [Int.fdiv_one, Int.fdiv_one, int_tdiv_two_eq_ratFloor ih h3]

/-- C1 (witness): a 3x5 still image on a 10x4 terminal resolves to
(3, floor(5/2)). -/
theorem c1_fit_geometry_witness :
    resolveGeometry 3 5 ⟨0, 1, false, .ok 10, .ok 4⟩ = .ok (3, ⌊(5 : ℚ) / 2⌋) :=
  c1_fit_geometry 3 5 10 4 ⟨0, 1, false, .ok 10, .ok 4⟩ rfl (Or.inl rfl) rfl rfl
    (by norm_num) (by norm_num) (by norm_num)

set_option maxRecDepth 100000 in
/-- C8 (counterexample): double rounding breaks the exact formula.
With user width 1 on a 49x98 image, the program computes
fl(fl(1/49) * 49) = 1 - 2^-53 and fl(fl(1/49) * 98) = 2 - 2^-52, so it
resolves (0, 0); the claimed exact formula gives width 1, height
floor(floor(2)/2) = 1.  Computed through the binary64 rounding model
by kernel reduction. -/
theorem c8_counterexample :
    resolveGeometryFloat 49 98 ⟨1, 0, false, .error "no cols", .error "no lines"⟩ =
      .ok (0, 0) ∧
    ((0 : Int), (0 : Int)) ≠ ((1 : Int), ⌊(⌊(1 : ℚ) / (49 : ℚ) * (98 : ℚ)⌋ : ℚ) / 2⌋) := by
  refine ⟨rfl, ?_⟩
  intro h
  have h1 := congrArg Prod.fst h
  norm_num at h1

/-- C8 (amended): with a user width override uw > 0 the result is
independent of terminal geometry (the theorem holds for arbitrary, even
failing, tput outcomes - the terminal is never consulted), and the
resolved size equals the claimed (uw, floor(floor(uw/iw*ih)/2))
whenever the float64 quantities involved are exactly representable:
uw/iw and uw/iw*ih each equal to m/2^k with m < 2^53 (and uw, iw, ih
below 2^53).  When the scale is not exactly representable, double
rounding can lower the result, as the counterexample shows. -/
theorem c8_user_width_float (uw iw ih : Int) (inp : GeomInput) (m1 k1 m2 k2 : Nat)
    (hu : inp.userWidth = uw) (hpos : 0 < uw) (hiw : 0 < iw) (hih : 0 ≤ ih)
    (huw53 : uw ≤ 2 ^ 53 - 1) (hiw53 : iw ≤ 2 ^ 53 - 1) (hih53 : ih ≤ 2 ^ 53 - 1)
    (hs : (uw : ℚ) / (iw : ℚ) = (m1 : ℚ) / 2 ^ k1) (hm1 : m1 ≤ 2 ^ 53 - 1)
    (hp : (uw : ℚ) / (iw : ℚ) * (ih : ℚ) = (m2 : ℚ) / 2 ^ k2) (hm2 : m2 ≤ 2 ^ 53 - 1) :
    resolveGeometryFloat iw ih inp =
      .ok (uw, ⌊(⌊(uw : ℚ) / (iw : ℚ) * (ih : ℚ)⌋ : ℚ) / 2⌋) := by
  have q53 : (2 : ℤ) ^ 53 = 9007199254740992 := by norm_num
  have huwE : (flOfInt uw).toRat = ((uw : ℤ) : ℚ) := flOfInt_exact uw hpos.le huw53
  have hiwE : (flOfInt iw).toRat = ((iw : ℤ) : ℚ) := flOfInt_exact iw hiw.le hiw53
  have hihE : (flOfInt ih).toRat = ((ih : ℤ) : ℚ) := flOfInt_exact ih hih hih53
  have duw : 0 < (flOfInt uw).den := roundFloat_den_pos _
  have diw : 0 < (flOfInt iw).den := roundFloat_den_pos _
  have dih : 0 < (flOfInt ih).den := roundFloat_den_pos _
  have niw : 0 < (flOfInt iw).num := by
    apply Frac.num_pos_of_toRat_pos _ diw
    rw [hiwE]
    exact_mod_cast hiw
  have hdivVal : (Frac.div (flOfInt uw) (flOfInt iw)).toRat = (uw : ℚ) / (iw : ℚ) := by
    rw [Frac.toRat_div _ _ duw.ne' diw.ne' niw.ne', huwE, hiwE]
  have hdivDen : 0 < (Frac.div (flOfInt uw) (flOfInt iw)).den := by
    unfold Frac.div
    exact mul_pos duw niw
  have hdivRep := rep_of_toRat _ hdivDen m1 k1 (by rw [hdivVal]; exact hs)
  have hsclVal : (flDiv (flOfInt uw) (flOfInt iw)).toRat = (uw : ℚ) / (iw : ℚ) := by
    unfold flDiv
    rw [roundFloat_exact _ m1 k1 hdivDen hdivRep hm1, hdivVal]
  have hsclDen : 0 < (flDiv (flOfInt uw) (flOfInt iw)).den := roundFloat_den_pos _
  have hmwVal : (Frac.mul (flDiv (flOfInt uw) (flOfInt iw)) (flOfInt iw)).toRat = (uw : ℚ) := by
    rw [Frac.toRat_mul, hsclVal, hiwE]
    rw [div_mul_cancel₀]
    exact_mod_cast hiw.ne'
  have hmwDen : 0 < (Frac.mul (flDiv (flOfInt uw) (flOfInt iw)) (flOfInt iw)).den := by
    unfold Frac.mul
    exact mul_pos hsclDen diw
  have hmwRep := rep_of_toRat _ hmwDen uw.toNat 0
    (by rw [hmwVal, pow_zero, div_one]; exact_mod_cast (Int.toNat_of_nonneg hpos.le).symm)
  have hwVal : (flMul (flDiv (flOfInt uw) (flOfInt iw)) (flOfInt iw)).toRat = (uw : ℚ) := by
    unfold flMul
    rw [roundFloat_exact _ uw.toNat 0 hmwDen hmwRep (by omega), hmwVal]
  have hwDen : 0 < (flMul (flDiv (flOfInt uw) (flOfInt iw)) (flOfInt iw)).den := by
    unfold flMul
    exact roundFloat_den_pos _
  have hw : (flMul (flDiv (flOfInt uw) (flOfInt iw)) (flOfInt iw)).floor = uw := by
    rw [Frac.floor_toRat _ hwDen, hwVal, Int.floor_intCast]
  have hmhVal : (Frac.mul (flDiv (flOfInt uw) (flOfInt iw)) (flOfInt ih)).toRat =
      (uw : ℚ) / (iw : ℚ) * (ih : ℚ) := by
    rw [Frac.toRat_mul, hsclVal, hihE]
  have hmhDen : 0 < (Frac.mul (flDiv (flOfInt uw) (flOfInt iw)) (flOfInt ih)).den := by
    unfold Frac.mul
    exact mul_pos hsclDen dih
  have hmhRep := rep_of_toRat _ hmhDen m2 k2 (by rw [hmhVal]; exact hp)
  have hhVal : (flMul (flDiv (flOfInt uw) (flOfInt iw)) (flOfInt ih)).toRat =
      (uw : ℚ) / (iw : ℚ) * (ih : ℚ) := by
    unfold flMul
    rw [roundFloat_exact _ m2 k2 hmhDen hmhRep hm2, hmhVal]
  have hhDen : 0 < (flMul (flDiv (flOfInt uw) (flOfInt iw)) (flOfInt ih)).den := by
    unfold flMul
    exact roundFloat_den_pos _
  have hh : (flMul (flDiv (flOfInt uw) (flOfInt iw)) (flOfInt ih)).floor =
      ⌊(uw : ℚ) / (iw : ℚ) * (ih : ℚ)⌋ := by
    rw [Frac.floor_toRat _ hhDen, hhVal]
  have hhnn : 0 ≤ ⌊(uw : ℚ) / (iw : ℚ) * (ih : ℚ)⌋ := by
    apply Int.floor_nonneg.2
    have c1 : (0 : ℚ) ≤ (uw : ℚ) := by exact_mod_cast hpos.le
    have c2 : (0 : ℚ) ≤ (iw : ℚ) := by exact_mod_cast hiw.le
    have c3 : (0 : ℚ) ≤ (ih : ℚ) := by exact_mod_cast hih
    positivity
  unfold resolveGeometryFloat
  rw [hu, if_pos hpos]
  dsimp only
  rw [hw, hh, int_tdiv_two_eq_ratFloor _ hhnn]

/-- C8 (witness): user width 4 on a 2x3 image, with both tput queries
failing; the scale 2 and the product 6 are exactly representable, so
the resolved size is the claimed (4, floor(floor(4/2*3)/2)). -/
theorem c8_user_width_float_witness :
    resolveGeometryFloat 2 3 ⟨4, 0, false, .error "no cols", .error "no lines"⟩ =
      .ok (4, ⌊(⌊(4 : ℚ) / (2 : ℚ) * (3 : ℚ)⌋ : ℚ) / 2⌋) :=
  c8_user_width_float 4 2 3 ⟨4, 0, false, .error "no cols", .error "no lines"⟩ 2 0 6 0 rfl
    (by norm_num) (by norm_num) (by norm_num) (by norm_num) (by norm_num) (by norm_num)
    (by norm_num) (by norm_num) (by norm_num) (by norm_num)

theorem testWriter_write (nl lu sl cl : Bool) (str : String) (evs : List Event) :
    (testWriter nl lu sl cl).write str evs =
      (evs ++ [Event.write str], if nl && str == "\n" then some "werr" else none) := rfl

theorem testWriter_lineUp (nl lu sl cl : Bool) (n : Int) (evs : List Event) :
    (testWriter nl lu sl cl).lineUp n evs =
      (evs ++ [Event.lineUp n], if lu then some "luerr" else none) := rfl

theorem testWriter_sleep (nl lu sl cl : Bool) (d : Int) (evs : List Event) :
    (testWriter nl lu sl cl).sleep d evs =
      (evs ++ [Event.sleep d], if sl then some "slerr" else none) := rfl

theorem testWriter_close (nl lu sl cl : Bool) (evs : List Event) :
    (testWriter nl lu sl cl).close evs =
      (evs ++ [Event.close], if cl then some "clerr" else none) := rfl

theorem drawRowPixels_trace (nl lu sl cl : Bool) (pic : List (List Int)) (y : Nat)
    (xs : List Nat) (evs : List Event) :
    drawRowPixels (testWriter nl lu sl cl) pic y xs evs =
      evs ++ xs.map (fun x => Event.write (pixelStr (picAt pic x y))) := by
  induction xs generalizing evs with
  | nil => simp [drawRowPixels]
  | cons x xs ih =>
    simp only [drawRowPixels, testWriter_write, List.map_cons]
    rw [ih]
    simp [List.append_assoc]

theorem drawRows_trace (lu sl cl : Bool) (w : Int) (pic : List (List Int))
    (ys : List Nat) (evs : List Event) :
    drawRows (testWriter false lu sl cl) w pic ys evs = .ok (evs ++ catRows pic w ys) := by
  induction ys generalizing evs with
  | nil => simp [drawRows, catRows]
  | cons y ys ih =>
    simp only [drawRows, drawRowPixels_trace, testWriter_write, Bool.false_and,
      Bool.false_eq_true, if_false]
    rw [ih]
    simp [catRows, rowEvents, List.append_assoc]

theorem drawRows_newline_fail (lu sl cl : Bool) (w : Int) (pic : List (List Int))
    (y : Nat) (ys : List Nat) (evs : List Event) :
    drawRows (testWriter true lu sl cl) w pic (y :: ys) evs =
      .error (evs ++ rowEvents pic w y, "werr") := by
  simp only [drawRows, drawRowPixels_trace, testWriter_write, Bool.true_and]
  simp [rowEvents, List.append_assoc]

theorem drawOneFrame_trace (cl : Bool) (w h : Int) (fr : Frame) (ffd : Bool)
    (delay : Int) (evs : List Event) :
    drawOneFrame (testWriter false false false cl) w h fr (ffd, delay, evs) =
      .ok (true, fr.delay,
        (evs ++ (if ffd then [Event.lineUp h, Event.sleep delay] else [])) ++
          frameEvents w h fr.picture) := by
  cases ffd with
  | false =>
    simp only [drawOneFrame, if_neg, Bool.false_eq_true, not_false_iff]
    rw [drawRows_trace]
    simp [frameEvents]
  | true =>
    simp only [drawOneFrame, if_pos, testWriter_lineUp, testWriter_sleep,
      Bool.false_eq_true, if_false]
    rw [show evs ++ [Event.lineUp h] ++ [Event.sleep delay] =
      evs ++ [Event.lineUp h, Event.sleep delay] by simp]
    rw [drawRows_trace]
    simp [frameEvents]

/-- C2: playing a 2-frame image with loop count 2 on a recording sink
produces exactly: frame 0 (no preceding sleep), cursor-up and
sleep(d0), frame 1, cursor-up and sleep(d1), frame 0, cursor-up and
sleep(d0), frame 1, close - four frame draws and three sleeps, each
sleep carrying the delay of the frame just finished. -/
theorem c2_playback (w h : Int) (p0 p1 : List (List Int)) (d0 d1 : Int) :
    ImageDraw ⟨[⟨p0, d0⟩, ⟨p1, d1⟩], w, h, 2⟩ recorder [] =
      (frameEvents w h p0 ++ [Event.lineUp h, Event.sleep d0] ++
        frameEvents w h p1 ++ [Event.lineUp h, Event.sleep d1] ++
        frameEvents w h p0 ++ [Event.lineUp h, Event.sleep d0] ++
        frameEvents w h p1 ++ [Event.close], none) := by
  unfold recorder ImageDraw
  rw [show ((2 : Int)).toNat = Nat.succ (Nat.succ 0) from rfl]
  simp only [drawLoops, drawFrames, drawOneFrame_trace, testWriter_close]
  simp [List.append_assoc]

theorem drawOneFrame_first_trace (lu sl cl : Bool) (w h : Int) (fr : Frame)
    (delay : Int) (evs : List Event) :
    drawOneFrame (testWriter false lu sl cl) w h fr (false, delay, evs) =
      .ok (true, fr.delay, evs ++ frameEvents w h fr.picture) := by
  simp only [drawOneFrame, Bool.false_eq_true, if_false]
  rw [drawRows_trace]
  simp [frameEvents]

theorem drawOneFrame_lineUp_fail (sl cl : Bool) (w h : Int) (fr : Frame)
    (delay : Int) (evs : List Event) :
    drawOneFrame (testWriter false true sl cl) w h fr (true, delay, evs) =
      .error (evs ++ [Event.lineUp h], "luerr") := by
  simp [drawOneFrame, testWriter_lineUp]

theorem drawOneFrame_sleep_fail (cl : Bool) (w h : Int) (fr : Frame)
    (delay : Int) (evs : List Event) :
    drawOneFrame (testWriter false false true cl) w h fr (true, delay, evs) =
      .error (evs ++ [Event.lineUp h, Event.sleep delay], "slerr") := by
  simp [drawOneFrame, testWriter_lineUp, testWriter_sleep, List.append_assoc]

/-- C5 (counterexample): a per-pixel write failure is DISCARDED.  On a
sink whose pixel-cell writes always fail (but whose newline writes,
cursor moves, sleeps and close succeed), drawing a 1x1 one-frame image
completes the full event sequence and returns no error, even though the
pixel write reported one. -/
theorem c5_counterexample :
    (pixelFailWriter.write (pixelStr 7) []).2 = some "pixel write failed" ∧
    ImageDraw ⟨[⟨[[7]], 0⟩], 1, 1, 1⟩ pixelFailWriter [] =
      ([Event.write (pixelStr 7), Event.write "\n", Event.close], none) := ⟨rfl, rfl⟩

/-- C5 (amended): every failure of a line-terminator write, a
cursor-up, a sleep, or the final close aborts rendering immediately
(nothing further is emitted) and the error is returned to the caller;
per-pixel write errors, by contrast, are discarded.  Stated over
fail-injecting recording sinks: a failing newline write stops after the
first row, a failing cursor-up right after the first frame, a failing
sleep right after that cursor-up, and a failing close reports its
error. -/
theorem c5_checked_ops :
    (∀ (w h : Int) (p0 : List (List Int)) (d0 : Int), 0 < h →
      ImageDraw ⟨[⟨p0, d0⟩], w, h, 1⟩ (testWriter true false false false) [] =
        (rowEvents p0 w 0, some "werr")) ∧
    (∀ (w h : Int) (p0 p1 : List (List Int)) (d0 d1 : Int),
      ImageDraw ⟨[⟨p0, d0⟩, ⟨p1, d1⟩], w, h, 1⟩ (testWriter false true false false) [] =
        (frameEvents w h p0 ++ [Event.lineUp h], some "luerr")) ∧
    (∀ (w h : Int) (p0 p1 : List (List Int)) (d0 d1 : Int),
      ImageDraw ⟨[⟨p0, d0⟩, ⟨p1, d1⟩], w, h, 1⟩ (testWriter false false true false) [] =
        (frameEvents w h p0 ++ [Event.lineUp h, Event.sleep d0], some "slerr")) ∧
    (∀ (w h : Int) (p0 : List (List Int)) (d0 : Int),
      ImageDraw ⟨[⟨p0, d0⟩], w, h, 1⟩ (testWriter false false false true) [] =
        (frameEvents w h p0 ++ [Event.close], some "clerr")) := by
  refine ⟨?_, ?_, ?_, ?_⟩
  · intro w h p0 d0 hh
    unfold ImageDraw
    rw [show ((1 : Int)).toNat = Nat.succ 0 from rfl]
    obtain ⟨k, hk⟩ : ∃ k, h.toNat = k + 1 := ⟨h.toNat - 1, by omega⟩
    simp only [drawLoops, drawFrames, drawOneFrame, Bool.false_eq_true, if_false]
    rw [hk, List.range_succ_eq_map, drawRows_newline_fail]
    simp
  · intro w h p0 p1 d0 d1
    unfold ImageDraw
    rw [show ((1 : Int)).toNat = Nat.succ 0 from rfl]
    simp only [drawLoops, drawFrames, drawOneFrame_first_trace, drawOneFrame_lineUp_fail]
    simp
  · intro w h p0 p1 d0 d1
    unfold ImageDraw
    rw [show ((1 : Int)).toNat = Nat.succ 0 from rfl]
    simp only [drawLoops, drawFrames, drawOneFrame_first_trace, drawOneFrame_sleep_fail]
    simp [List.append_assoc]
  · intro w h p0 d0
    unfold ImageDraw
    rw [show ((1 : Int)).toNat = Nat.succ 0 from rfl]
    simp only [drawLoops, drawFrames, drawOneFrame_first_trace, testWriter_close]
    simp

/-- C5 (witness): the failing-newline scenario at the concrete image
[[5]] with w = h = 1. -/
theorem c5_checked_ops_witness :
    ImageDraw ⟨[⟨[[5]], 0⟩], 1, 1, 1⟩ (testWriter true false false false) [] =
      (rowEvents [[5]] 1 0, some "werr") :=
  c5_checked_ops.1 1 1 [[5]] 0 (by norm_num)

/-- C3: for a 2-frame animation where frame 0 carries disposal
restore-to-background (2) and frame 1 carries disposal none (1), the
captured composites are frame 0 over a blank canvas and frame 1 over a
blank canvas; the second composite equals frame 1 pixel for pixel, so
frame 0 contributes nothing to it. -/
theorem c3_background_then_none (iw ih : Int) (f0 f1 : Raster) (ds : List Int) :
    (compRun ⟨iw, ih, [f0, f1], ds, [2, 1]⟩).1 =
      [overlay blankRaster f0, overlay blankRaster f1] ∧
    ∀ x y, overlay blankRaster f1 x y = f1 x y := by
  constructor
  · rfl
  · intro x y
    unfold overlay blankRaster
    cases f1 x y <;> rfl

/-- C4 (code bug): `prev = &(*canvas)` stores the canvas POINTER, not a
snapshot, so restore-to-previous never undoes drawing done after the
remember step.  In gEx, frame 0 (disposal none) paints (0,0) and is
remembered, frame 1 (disposal previous) paints (1,0), frame 2 paints
nothing; the claimed snapshot semantics would make the third composite
blank at (1,0) (equal to the remembered first composite there), but the
code keeps frame 1 pixel (1,0) = 2. -/
theorem c4_alias_eval :
    ((compRun gEx).1.getD 2 blankRaster) 1 0 = some 2 ∧
      ((compRun gEx).1.getD 0 blankRaster) 1 0 = none := ⟨rfl, rfl⟩

theorem renderDelay_zero (m : Frac) : renderDelay 0 m = 0 := by
  simp [renderDelay, Frac.ceil, Frac.mul, Frac.div, Frac.ofInt, Int.zero_fdiv]

theorem renderDelay_eq (dms : Int) (m : Frac) (hden : 0 < m.den) :
    renderDelay dms m = ⌈(dms : ℚ) / 10 * m.toRat⌉ := by
  have h1 : renderDelay dms m = Frac.ceil ⟨dms * m.num, 10 * m.den⟩ := by
    simp [renderDelay, Frac.mul, Frac.div, Frac.ofInt]
  rw [h1, Frac.ceil_eq_ratCeil _ _ (by positivity)]
  rw [Frac.toRat, div_mul_div_comm]
  push_cast
  ring_nf

theorem ImageInit_ok (cfg : ImageCfg) (env : Env) (r : InitResult)
    (hr : (ImageInit cfg env).1 = .ok r) :
    ∃ d wh, env.decodeResult = .ok d ∧
      resolveGeometry d.iw d.ih
        ⟨cfg.userWidth, cfg.loopCount, d.fmt == "gif", env.tputCols, env.tputLines⟩ = .ok wh ∧
      (((d.fmt == "gif") = true ∧ 0 < cfg.loopCount ∧
          ∃ g, env.gifResult = .ok g ∧
            r = ⟨compositeAll cfg env wh.1 wh.2 g, wh.1, wh.2, cfg.loopCount⟩) ∨
        (¬((d.fmt == "gif") = true ∧ 0 < cfg.loopCount) ∧
          r = ⟨appendImg cfg env wh.1 wh.2 d.frame 0 [], wh.1, wh.2, 1⟩)) := by
  unfold ImageInit at hr
  rcases ho : env.openResult with e | u <;> rw [ho] at hr <;> dsimp only at hr
  · simp at hr
  rcases hd : env.decodeResult with e | d <;> rw [hd] at hr <;> dsimp only at hr
  · simp at hr
  rcases hgeo : resolveGeometry d.iw d.ih
      ⟨cfg.userWidth, cfg.loopCount, d.fmt == "gif", env.tputCols, env.tputLines⟩
    with e | wh <;> rw [hgeo] at hr <;> dsimp only at hr
  · simp at hr
  by_cases hb : (d.fmt == "gif") = true ∧ 0 < cfg.loopCount
  · rw [if_pos hb] at hr
    rcases ho2 : env.openResult2 with e | u2 <;> rw [ho2] at hr <;> dsimp only at hr
    · simp at hr
    rcases hgif : env.gifResult with e | g <;> rw [hgif] at hr <;> dsimp only at hr
    · simp at hr
    exact ⟨d, wh, rfl, hgeo, Or.inl ⟨hb.1, hb.2, g, rfl, (Except.ok.inj hr).symm⟩⟩
  · rw [if_neg hb] at hr
    dsimp only at hr
    exact ⟨d, wh, rfl, hgeo, Or.inr ⟨hb, (Except.ok.inj hr).symm⟩⟩

/-- C6: for a static source (format not "gif"), or an animated source
with requested loop count 0, a successful Init yields exactly one
frame - the quantization of the first decoded picture, with delay 0 -
and the loop count is forced to 1 regardless of the caller-supplied
value. -/
theorem c6_static_single (cfg : ImageCfg) (env : Env) (d : StillDecode) (r : InitResult)
    (hd : env.decodeResult = .ok d)
    (hs : d.fmt ≠ "gif" ∨ cfg.loopCount = 0)
    (hr : (ImageInit cfg env).1 = .ok r) :
    r.loopCount = 1 ∧ r.frames = [⟨quantizedPic env r.w r.h d.frame, 0⟩] := by
  obtain ⟨d2, wh, hd2, hgeo, hcase⟩ := ImageInit_ok cfg env r hr
  have hdd : d2 = d := by rw [hd] at hd2; exact Except.ok.inj hd2.symm
  subst hdd
  rcases hcase with ⟨hg1, hg2, g, hgif, hre⟩ | ⟨hb, hre⟩
  · exfalso
    rcases hs with hfmt | hl
    · exact hfmt (by simpa using hg1)
    · rw [hl] at hg2; exact lt_irrefl 0 hg2
  · subst hre
    exact ⟨rfl, by simp [appendImg, renderDelay_zero]⟩

/-- C6 (witness): a static 2x2 image with requested loop count 5 and
user width 2 yields one frame of delay 0 and loop count 1. -/
theorem c6_static_single_witness :
    (ImageInit cfgStatic envStatic).1 = .ok ⟨[⟨[[3], [3]], 0⟩], 2, 1, 1⟩ ∧
      (InitResult.loopCount ⟨[⟨[[3], [3]], 0⟩], 2, 1, 1⟩ = 1 ∧
        InitResult.frames ⟨[⟨[[3], [3]], 0⟩], 2, 1, 1⟩ =
          [⟨quantizedPic envStatic 2 1 dStill.frame, 0⟩]) :=
  ⟨rfl, c6_static_single cfgStatic envStatic dStill ⟨[⟨[[3], [3]], 0⟩], 2, 1, 1⟩ rfl
    (Or.inl (by decide)) rfl⟩

set_option maxRecDepth 100000 in
/-- C7 (counterexample): double rounding breaks the exact formula.
With the delay multiplier 1.6666666666666667 (the float64 nearest 5/3,
which is 5/3 + 1/(3*2^52)) and source delay 3 (30 ms), the program
computes fl(3 * multEx) = 5.0 exactly and stores ceil(5.0) = 5, while
the claimed formula ceil(d * m) gives ceil(5 + 2^-52) = 6. -/
theorem c7_counterexample :
    renderDelayFloat (3 * 10) multEx = 5 ∧
      ⌈(3 : ℚ) * multEx.toRat⌉ = 6 ∧ (5 : Int) ≠ 6 := by
  refine ⟨rfl, ?_, by decide⟩
  have h1 : (3 : ℚ) * multEx.toRat =
      ((22517998136852481 : ℤ) : ℚ) / ((4503599627370496 : ℤ) : ℚ) := by
    unfold multEx Frac.toRat
    push_cast
    norm_num
  rw [h1, ← Frac.ceil_eq_ratCeil 22517998136852481 4503599627370496 (by norm_num)]
  rfl

/-- C7 (amended): a frame with source GIF delay d (in hundredths of a
second, passed as d*10 milliseconds) stores the render delay
ceil(d * delayMultiplier) - the claimed
ceil(sourceDelayMs / 10 * multiplier) - whenever the float64 product
d * multiplier is exactly representable (equal to m/2^k with
m < 2^53, and d*10 below 2^53).  When it is not, the correctly rounded
product can land on the other side of an integer and shift the ceiling,
as the counterexample shows. -/
theorem c7_delay_float (d : Int) (mult : Frac) (m2 k2 : Nat)
    (hd0 : 0 ≤ d) (hd53 : d * 10 ≤ 2 ^ 53 - 1)
    (hmden : 0 < mult.den)
    (hp : (d : ℚ) * mult.toRat = (m2 : ℚ) / 2 ^ k2) (hm2 : m2 ≤ 2 ^ 53 - 1) :
    renderDelayFloat (d * 10) mult = ⌈(d : ℚ) * mult.toRat⌉ := by
  have q53 : (2 : ℤ) ^ 53 = 9007199254740992 := by norm_num
  have hdd : 0 ≤ d * 10 := by positivity
  have hcd : (flOfInt (d * 10)).toRat = ((d * 10 : ℤ) : ℚ) := flOfInt_exact _ hdd hd53
  have hc10 : (flOfInt 10).toRat = ((10 : ℤ) : ℚ) := flOfInt_exact 10 (by norm_num) (by norm_num)
  have dcd : 0 < (flOfInt (d * 10)).den := roundFloat_den_pos _
  have dc10 : 0 < (flOfInt 10).den := roundFloat_den_pos _
  have n10 : 0 < (flOfInt 10).num := by
    apply Frac.num_pos_of_toRat_pos _ dc10
    rw [hc10]
    norm_num
  have hdivVal : (Frac.div (flOfInt (d * 10)) (flOfInt 10)).toRat = (d : ℚ) := by
    rw [Frac.toRat_div _ _ dcd.ne' dc10.ne' n10.ne', hcd, hc10]
    push_cast
    rw [mul_div_assoc, div_self (by norm_num : (10 : ℚ) ≠ 0), mul_one]
  have hdivDen : 0 < (Frac.div (flOfInt (d * 10)) (flOfInt 10)).den := by
    unfold Frac.div
    exact mul_pos dcd n10
  have hdivRep := rep_of_toRat _ hdivDen d.toNat 0
    (by rw [hdivVal, pow_zero, div_one]; exact_mod_cast (Int.toNat_of_nonneg hd0).symm)
  have ht1 : (flDiv (flOfInt (d * 10)) (flOfInt 10)).toRat = (d : ℚ) := by
    unfold flDiv
    rw [roundFloat_exact _ d.toNat 0 hdivDen hdivRep (by omega), hdivVal]
  have ht1den : 0 < (flDiv (flOfInt (d * 10)) (flOfInt 10)).den := roundFloat_den_pos _
  have hmulVal : (Frac.mul (flDiv (flOfInt (d * 10)) (flOfInt 10)) mult).toRat =
      (d : ℚ) * mult.toRat := by
    rw [Frac.toRat_mul, ht1]
  have hmulDen : 0 < (Frac.mul (flDiv (flOfInt (d * 10)) (flOfInt 10)) mult).den := by
    unfold Frac.mul
    exact mul_pos ht1den hmden
  have hmulRep := rep_of_toRat _ hmulDen m2 k2 (by rw [hmulVal]; exact hp)
  have ht2 : (flMul (flDiv (flOfInt (d * 10)) (flOfInt 10)) mult).toRat =
      (d : ℚ) * mult.toRat := by
    unfold flMul
    rw [roundFloat_exact _ m2 k2 hmulDen hmulRep hm2, hmulVal]
  have hfinden : 0 < (flMul (flDiv (flOfInt (d * 10)) (flOfInt 10)) mult).den := by
    unfold flMul
    exact roundFloat_den_pos _
  unfold renderDelayFloat
  rw [Frac.ceil_toRat _ hfinden, ht2]

/-- C7 (witness): source delay 3 with the exactly representable
multiplier 2 stores delay ceil(3*2). -/
theorem c7_delay_float_witness :
    renderDelayFloat (3 * 10) ⟨2, 1⟩ = ⌈(3 : ℚ) * Frac.toRat ⟨2, 1⟩⌉ :=
  c7_delay_float 3 ⟨2, 1⟩ 6 0 (by norm_num) (by norm_num) (by norm_num)
    (by unfold Frac.toRat; push_cast; norm_num) (by norm_num)

theorem renderDelay_nonneg (dms : Int) (m : Frac) (hdms : 0 ≤ dms)
    (hm : 0 ≤ m.num) (hden : 0 < m.den) : 0 ≤ renderDelay dms m := by
  rw [renderDelay_eq dms m hden]
  apply Int.ceil_nonneg
  apply mul_nonneg
  · positivity
  · unfold Frac.toRat
    positivity

theorem quantizedPic_length (env : Env) (w h : Int) (f : Raster) :
    (quantizedPic env w h f).length = w.toNat := by
  simp [quantizedPic]

theorem quantizedPic_row_length (env : Env) (w h : Int) (f : Raster) :
    ∀ row ∈ quantizedPic env w h f, row.length = h.toNat := by
  intro row hrow
  simp only [quantizedPic, List.mem_map] at hrow
  obtain ⟨x, hx, hrw⟩ := hrow
  rw [← hrw]
  simp

theorem getD_int_nonneg (l : List Int) (i : Nat) (h : ∀ dl ∈ l, 0 ≤ dl) :
    0 ≤ l.getD i 0 := by
  rcases lt_or_le i l.length with hi | hi
  · rw [List.getD_eq_getElem l 0 hi]
    exact h _ (List.getElem_mem hi)
  · rw [List.getD_eq_default l 0 hi]

theorem appendImg_forall (cfg : ImageCfg) (env : Env) (w h : Int) (f : Raster)
    (dms : Int) (frames : List Frame) (P : Frame → Prop)
    (hfr : ∀ fr ∈ frames, P fr)
    (hnew : P ⟨quantizedPic env w h f, renderDelay dms cfg.delayMultiplier⟩) :
    ∀ fr ∈ appendImg cfg env w h f dms frames, P fr := by
  intro fr hmem
  rcases List.mem_append.1 hmem with hold | hnewm
  · exact hfr fr hold
  · rcases List.mem_singleton.1 hnewm with rfl
    exact hnew

theorem compositeAll_forall (cfg : ImageCfg) (env : Env) (w h : Int) (g : GifData)
    (P : Frame → Prop)
    (hnew : ∀ (f : Raster) (i : Nat),
      P ⟨quantizedPic env w h f, renderDelay (g.delays.getD i 0 * 10) cfg.delayMultiplier⟩) :
    ∀ fr ∈ compositeAll cfg env w h g, P fr := by
  unfold compositeAll
  have key : ∀ (l : List Nat) (acc : List Frame × CompState),
      (∀ fr ∈ acc.1, P fr) →
      ∀ fr ∈ (l.foldl (fun (acc : List Frame × CompState) i =>
          let step := compStep g acc.2 i
          (appendImg cfg env w h step.1 (g.delays.getD i 0 * 10) acc.1, step.2)) acc).1,
        P fr := by
    intro l
    induction l with
    | nil => intro acc hacc; simpa using hacc
    | cons i t ih =>
      intro acc hacc
      rw [List.foldl_cons]
      exact ih _ (appendImg_forall cfg env w h _ _ _ P hacc (hnew _ i))
  intro fr hfr
  exact key _ _ (by simp) fr hfr

/-- C9 (counterexample): with delay multiplier -1 and a one-frame
animated GIF of source delay 1, Init succeeds and stores a frame whose
delay is -1, violating the claimed unconditional nonnegativity. -/
theorem c9_counterexample :
    ¬ (∀ r, (ImageInit cfgNeg envNeg).1 = .ok r → ∀ fr ∈ r.frames, 0 ≤ fr.delay) := by
  intro hall
  exact absurd (hall ⟨[⟨[[]], -1⟩], 1, 0, 1⟩ rfl ⟨[[]], -1⟩ (by simp)) (by decide)

/-- C9 (amended): after a successful Init, every frame has an index
buffer of exactly (resolved width) x (resolved height) -
unconditionally, for every input and configuration; and, provided the
configured delay multiplier is nonnegative and the decoded GIF delays
are nonnegative (they are, being unsigned on the wire), every stored
delay is also nonnegative.  The counterexample shows the delay half is
genuinely conditional. -/
theorem c9_frame_invariants (cfg : ImageCfg) (env : Env) (r : InitResult)
    (hr : (ImageInit cfg env).1 = .ok r) :
    (∀ fr ∈ r.frames, frameDims r.w r.h fr) ∧
      (0 ≤ cfg.delayMultiplier.num → 0 < cfg.delayMultiplier.den →
        (∀ g, env.gifResult = .ok g → ∀ dl ∈ g.delays, 0 ≤ dl) →
        ∀ fr ∈ r.frames, 0 ≤ fr.delay) := by
  obtain ⟨d, wh, hd2, hgeo, hcase⟩ := ImageInit_ok cfg env r hr
  rcases hcase with ⟨hg1, hg2, g, hgif, hre⟩ | ⟨hb, hre⟩
  · subst hre
    constructor
    · exact compositeAll_forall cfg env wh.1 wh.2 g (frameDims wh.1 wh.2)
        (fun f i => ⟨quantizedPic_length env wh.1 wh.2 f,
          quantizedPic_row_length env wh.1 wh.2 f⟩)
    · intro hm hden hg
      exact compositeAll_forall cfg env wh.1 wh.2 g (fun fr => 0 ≤ fr.delay)
        (fun f i => renderDelay_nonneg _ _
          (mul_nonneg (getD_int_nonneg g.delays i (hg g hgif)) (by norm_num)) hm hden)
  · subst hre
    constructor
    · exact appendImg_forall cfg env wh.1 wh.2 d.frame 0 [] (frameDims wh.1 wh.2)
        (by simp)
        ⟨quantizedPic_length env wh.1 wh.2 d.frame,
          quantizedPic_row_length env wh.1 wh.2 d.frame⟩
    · intro hm hden _
      exact appendImg_forall cfg env wh.1 wh.2 d.frame 0 [] (fun fr => 0 ≤ fr.delay)
        (by simp)
        (renderDelay_nonneg 0 cfg.delayMultiplier le_rfl hm hden)

/-- C9 (witness): the static 2x2 fixture satisfies both halves of the
frame invariants, with every hypothesis discharged concretely. -/
theorem c9_frame_invariants_witness :
    (ImageInit cfgStatic envStatic).1 = .ok ⟨[⟨[[3], [3]], 0⟩], 2, 1, 1⟩ ∧
      (∀ fr ∈ InitResult.frames ⟨[⟨[[3], [3]], 0⟩], 2, 1, 1⟩, frameDims 2 1 fr) ∧
      (∀ fr ∈ InitResult.frames ⟨[⟨[[3], [3]], 0⟩], 2, 1, 1⟩, 0 ≤ fr.delay) :=
  ⟨rfl,
    (c9_frame_invariants cfgStatic envStatic ⟨[⟨[[3], [3]], 0⟩], 2, 1, 1⟩ rfl).1,
    (c9_frame_invariants cfgStatic envStatic ⟨[⟨[[3], [3]], 0⟩], 2, 1, 1⟩ rfl).2
      (by decide) (by decide)
      (fun g hgeq => by
        rw [show envStatic.gifResult = Except.ok gEmpty from rfl] at hgeq
        cases Except.ok.inj hgeq
        intro dl hdl
        simp [gEmpty] at hdl)⟩

/-- C10 (counterexample): when `image.Decode` fails, Init returns the
error with the source file opened and never closed - the handle is
leaked on the decode-error path, against the claimed release on both
paths. -/
theorem c10_counterexample :
    ImageInit cfgStatic envDecodeErr = (.error "bad data", [FOp.fopen]) ∧
      List.count FOp.fclose [FOp.fopen] = 0 := ⟨rfl, rfl⟩

/-- C10 (amended): whenever the decodes succeed (still decode, and GIF
decode when consulted), every file open performed by Init is matched by
a close before Init returns; on the GIF path the close happens after
the compositing loop.  On decode-error paths the handle stays open. -/
theorem c10_success_balanced (cfg : ImageCfg) (env : Env) (d : StillDecode) (g : GifData)
    (hd : env.decodeResult = .ok d) (hg : env.gifResult = .ok g) :
    ((ImageInit cfg env).2.count FOp.fopen) = ((ImageInit cfg env).2.count FOp.fclose) := by
  unfold ImageInit
  rcases ho : env.openResult with e | u <;> dsimp only
  · rfl
  rw [hd]
  dsimp only
  rcases hgeo : resolveGeometry d.iw d.ih
      ⟨cfg.userWidth, cfg.loopCount, d.fmt == "gif", env.tputCols, env.tputLines⟩
    with e | wh <;> dsimp only
  · rfl
  by_cases hb : (d.fmt == "gif") = true ∧ 0 < cfg.loopCount
  · rw [if_pos hb]
    rcases ho2 : env.openResult2 with e | u2 <;> dsimp only
    · rfl
    rw [hg]
    rfl
  · rw [if_neg hb]
    rfl

/-- C10 (witness): the static fixture opens once and closes once. -/
theorem c10_success_balanced_witness :
    (ImageInit cfgStatic envStatic).2.count FOp.fopen =
      (ImageInit cfgStatic envStatic).2.count FOp.fclose :=
  c10_success_balanced cfgStatic envStatic dStill gEmpty rfl rfl

end Img
